import Mathlib

/-!
Verification of the deepr repository: the declarative configuration system
(`parse_config` / `from_config`), the `prepro` decorator of
`deepr/prepros/base.py`, and the `DecayMean` metric of `deepr/metrics/mean.py`.

The configuration module itself is not part of the source excerpt (only its
test file `tests/unit/config/test_config_base.py` is), so `parse_config` and
`from_config` are modelled from the specification; the `prepro` decorator and
`DecayMean.__init__` are embedded directly from the source files.
-/

/-- A Config Description: a nested literal value, one of null, boolean,
number, string, ordered sequence, or mapping from string keys to values
(Python dicts preserve insertion order, hence a list of pairs). -/
inductive Value where
  | null
  | bool (b : Bool)
  | int (n : Int)
  | str (s : String)
  | arr (elems : List Value)
  | obj (fields : List (String × Value))

/-- The result of `from_config`: a literal value, or an instantiated object.
An instantiated object is represented symbolically by the dotted name of its
type together with the positional and named arguments it was called with
(the type-namespace lookup is an external collaborator, a pure mapping from
dotted string to callable). -/
inductive Obj where
  | null
  | bool (b : Bool)
  | int (n : Int)
  | str (s : String)
  | arr (elems : List Obj)
  | map (fields : List (String × Obj))
  | inst (ty : String) (args : List Obj) (kwargs : List (String × Obj))

/-- First-match lookup of a key in an ordered field list (Python dict access). -/
def lookupField (k : String) : List (String × Value) → Option Value
  | [] => none
  | (k', v) :: rest => if k' = k then some v else lookupField k rest

/-- A mapping is a Component Description when it carries a reserved "type" key. -/
def hasType (fs : List (String × Value)) : Bool := (lookupField "type" fs).isSome

/-- Modelled from the spec: a Macro Reference is a string of the form
"$NAME:DOTTED.PATH" (starts with a dollar sign and carries a colon). -/
def isMacroStr (s : String) : Bool :=
  match s.toList with
  | '$' :: rest => rest.contains ':'
  | _ => false

/-- The macro name of a Macro Reference: the characters between the dollar
sign and the first colon. -/
def macroNameOf (s : String) : String :=
  ⟨(s.toList.drop 1).takeWhile (fun c => c ≠ ':')⟩

/-- The characters of a Macro Reference after the first colon. -/
def macroPathChars (s : String) : List Char :=
  ((s.toList.drop 1).dropWhile (fun c => c ≠ ':')).drop 1

/-- Split a character list on dots, accumulating the current segment. -/
def splitDotsAux : List Char → List Char → List String
  | [], acc => [⟨acc.reverse⟩]
  | c :: rest, acc =>
    if c = '.' then ⟨acc.reverse⟩ :: splitDotsAux rest [] else splitDotsAux rest (c :: acc)

/-- The dotted path of a Macro Reference, as a list of segments. -/
def macroPathOf (s : String) : List String := splitDotsAux (macroPathChars s) []

/-- Modelled from the spec: descend a dotted path through nested mappings,
failing with a lookup error when a segment is missing or the current value
is not a mapping. -/
def descend : List String → Value → Except String Value
  | [], v => .ok v
  | seg :: rest, .obj fs =>
    match lookupField seg fs with
    | some v => descend rest v
    | none => .error ("missing path segment " ++ seg)
  | _ :: _, _ => .error "cannot descend into a non-mapping"

/-- Modelled from the spec: resolve a Macro Reference against the
macro-mapping, failing when the macro name is absent (KeyError) and then
descending the dotted path. -/
def macroValueOf (macros : List (String × Value)) (s : String) : Except String Value :=
  match lookupField (macroNameOf s) macros with
  | none => .error ("KeyError: " ++ macroNameOf s)
  | some v => descend (macroPathOf s) v

/-- Effectful map over a list, stopping at the first error. -/
def mapExcept (f : Value → Except String Value) : List Value → Except String (List Value)
  | [] => .ok []
  | x :: xs =>
    match f x with
    | .error e => .error e
    | .ok y =>
      match mapExcept f xs with
      | .error e => .error e
      | .ok ys => .ok (y :: ys)

/-- Effectful map over the values of a field list, keeping keys and order,
stopping at the first error. -/
def mapExceptSnd (f : Value → Except String Value) :
    List (String × Value) → Except String (List (String × Value))
  | [] => .ok []
  | (k, v) :: rest =>
    match f v with
    | .error e => .error e
    | .ok w =>
      match mapExceptSnd f rest with
      | .error e => .error e
      | .ok rest' => .ok ((k, w) :: rest')

/-- Is this value the literal Self Reference string "@self"? -/
def isSelfStr : Value → Bool
  | .str s => s = "@self"
  | _ => false

/-- Modelled from the spec: the recursive worker of `parse_config`.
Null and scalars pass through; a Macro Reference string is resolved and its
terminal value recursively parsed; sequences are parsed elementwise in
order; a Component Description (mapping with a "type" key) has every value
recursively parsed except a value exactly equal to "@self", which is
replaced verbatim by a snapshot of the original description augmented with
an "eval": "skip" entry (the snapshot is not itself recursively parsed);
a non-component mapping has every value recursively parsed.  The `fuel`
parameter bounds recursion depth, standing in for the host call stack on
cyclic macro chains. -/
def parseV : Nat → List (String × Value) → Value → Except String Value
  | 0, _, _ => .error "recursion limit exceeded"
  | fuel + 1, macros, v =>
    match v with
    | .null => .ok .null
    | .bool b => .ok (.bool b)
    | .int n => .ok (.int n)
    | .str s =>
      if isMacroStr s then
        match macroValueOf macros s with
        | .error e => .error e
        | .ok w => parseV fuel macros w
      else .ok (.str s)
    | .arr xs =>
      match mapExcept (parseV fuel macros) xs with
      | .error e => .error e
      | .ok ys => .ok (.arr ys)
    | .obj fs =>
      if hasType fs then
        match mapExceptSnd
            (fun w =>
              if isSelfStr w then .ok (Value.obj (fs ++ [("eval", Value.str "skip")]))
              else parseV fuel macros w) fs with
        | .error e => .error e
        | .ok fs' => .ok (.obj fs')
      else
        match mapExceptSnd (parseV fuel macros) fs with
        | .error e => .error e
        | .ok fs' => .ok (.obj fs')

mutual

/-- Structural size of a value, for fuel bounds. -/
def vsize : Value → Nat
  | .null => 1
  | .bool _ => 1
  | .int _ => 1
  | .str _ => 1
  | .arr xs => 1 + vsizeList xs
  | .obj fs => 1 + vsizeFields fs

/-- `vsize` summed over the elements of a sequence. -/
def vsizeList : List Value → Nat
  | [] => 0
  | x :: xs => 1 + vsize x + vsizeList xs

/-- `vsize` summed over the values of a mapping. -/
def vsizeFields : List (String × Value) → Nat
  | [] => 0
  | kv :: fs => 1 + vsize kv.2 + vsizeFields fs

end

/-- Modelled from the spec: `parse_config(config, macros)` resolves macro
references and self references in a Config Description (a null macro
argument is the empty macro-mapping).  The fuel supplied to the worker is
ample for any description whose macro chains are acyclic at this size. -/
def parse_config (config : Value) (macros : List (String × Value)) : Except String Value :=
  parseV (vsize config + vsizeFields macros) macros config

/-- Is the "eval" entry of a field list the skip marker "skip"? -/
def isSkipEval (fs : List (String × Value)) : Bool :=
  match lookupField "eval" fs with
  | some (.str s) => s = "skip"
  | _ => false

/-- The dotted type name of a Component Description (the string value of
its "type" key). -/
def typeNameOf (fs : List (String × Value)) : String :=
  match lookupField "type" fs with
  | some (.str s) => s
  | _ => ""

mutual

/-- Modelled from the spec: `from_config(item)`.  Null, scalars, sequences
and non-component mappings pass through structurally, recursing into
elements and values.  A Component Description carrying "eval": "skip" is
not instantiated: it becomes a literal mapping with the "eval" key removed,
the "type" key retained and every other value recursively processed.  A
Component Description without the skip marker is instantiated: the value of
the reserved "*" key supplies positional arguments and all other
non-reserved keys supply named arguments, each recursively processed. -/
def fromConfig : Value → Obj
  | .null => .null
  | .bool b => .bool b
  | .int n => .int n
  | .str s => .str s
  | .arr xs => .arr (fromConfigList xs)
  | .obj fs =>
    if hasType fs then
      if isSkipEval fs then
        .map (fromConfigSkipFields fs)
      else
        .inst (typeNameOf fs) (fromConfigArgs fs) (fromConfigKw fs)
    else
      .map (fromConfigFields fs)

/-- `from_config` mapped over the elements of a sequence. -/
def fromConfigList : List Value → List Obj
  | [] => []
  | x :: xs => fromConfig x :: fromConfigList xs

/-- `from_config` mapped over the values of a non-component mapping. -/
def fromConfigFields : List (String × Value) → List (String × Obj)
  | [] => []
  | (k, v) :: rest => (k, fromConfig v) :: fromConfigFields rest

/-- Fields of a skip-marked Component Description: the "eval" key is
dropped, every other value is recursively processed. -/
def fromConfigSkipFields : List (String × Value) → List (String × Obj)
  | [] => []
  | (k, v) :: rest =>
    if k = "eval" then fromConfigSkipFields rest
    else (k, fromConfig v) :: fromConfigSkipFields rest

/-- Named constructor arguments of a Component Description: all keys other
than the reserved "type", "eval" and "*", values recursively processed. -/
def fromConfigKw : List (String × Value) → List (String × Obj)
  | [] => []
  | (k, v) :: rest =>
    if k = "type" ∨ k = "eval" ∨ k = "*" then fromConfigKw rest
    else (k, fromConfig v) :: fromConfigKw rest

/-- Positional constructor arguments of a Component Description: the value
of the first reserved "*" key, a sequence expanded elementwise, each
element recursively processed (absent key: no positional arguments). -/
def fromConfigArgs : List (String × Value) → List Obj
  | [] => []
  | ("*", .arr xs) :: _ => fromConfigList xs
  | ("*", v) :: _ => [fromConfig v]
  | _ :: rest => fromConfigArgs rest

end

/-- The source name of the instantiation operation. -/
def from_config : Value → Obj := fromConfig

mutual

/-- No occurrence of the Self Reference string "@self" anywhere in a value. -/
def selfFree : Value → Bool
  | .null => true
  | .bool _ => true
  | .int _ => true
  | .str s => s ≠ "@self"
  | .arr xs => selfFreeList xs
  | .obj fs => selfFreeFields fs

/-- `selfFree` over the elements of a sequence. -/
def selfFreeList : List Value → Bool
  | [] => true
  | x :: xs => selfFree x && selfFreeList xs

/-- `selfFree` over the values of a mapping. -/
def selfFreeFields : List (String × Value) → Bool
  | [] => true
  | kv :: fs => selfFree kv.2 && selfFreeFields fs

end

mutual

/-- No Macro Reference string anywhere in a value. -/
def macroFree : Value → Bool
  | .null => true
  | .bool _ => true
  | .int _ => true
  | .str s => !isMacroStr s
  | .arr xs => macroFreeList xs
  | .obj fs => macroFreeFields fs

/-- `macroFree` over the elements of a sequence. -/
def macroFreeList : List Value → Bool
  | [] => true
  | x :: xs => macroFree x && macroFreeList xs

/-- `macroFree` over the values of a mapping. -/
def macroFreeFields : List (String × Value) → Bool
  | [] => true
  | kv :: fs => macroFree kv.2 && macroFreeFields fs

end

/-- `selfFree` over the values of a macro-mapping. -/
def selfFreeMacros (macros : List (String × Value)) : Bool := selfFreeFields macros

mutual

/-- No Component Description (mapping with a "type" key) anywhere in a value. -/
def noComponent : Value → Bool
  | .null => true
  | .bool _ => true
  | .int _ => true
  | .str _ => true
  | .arr xs => noComponentList xs
  | .obj fs => !hasType fs && noComponentFields fs

/-- `noComponent` over the elements of a sequence. -/
def noComponentList : List Value → Bool
  | [] => true
  | x :: xs => noComponent x && noComponentList xs

/-- `noComponent` over the values of a mapping. -/
def noComponentFields : List (String × Value) → Bool
  | [] => true
  | kv :: fs => noComponent kv.2 && noComponentFields fs

end

mutual

/-- The literal embedding of a Config Description into `from_config`
results (no instantiation anywhere). -/
def toObj : Value → Obj
  | .null => .null
  | .bool b => .bool b
  | .int n => .int n
  | .str s => .str s
  | .arr xs => .arr (toObjList xs)
  | .obj fs => .map (toObjFields fs)

/-- `toObj` over the elements of a sequence. -/
def toObjList : List Value → List Obj
  | [] => []
  | x :: xs => toObj x :: toObjList xs

/-- `toObj` over the values of a mapping. -/
def toObjFields : List (String × Value) → List (String × Obj)
  | [] => []
  | (k, v) :: rest => (k, toObj v) :: toObjFields rest

end

/-- A declared parameter of a Python function: its name and whether it has
a default value (from `inspect.signature(fn).parameters`). -/
structure Param where
  name : String
  hasDefault : Bool
deriving DecidableEq

/-- The three shapes of function accepted by the `prepro` decorator
(`deepr/prepros/base.py`): an apply function over dataset and mode, an
apply function over dataset only, or a lazy factory of Prepro instances. -/
inductive PreproShape where
  | datasetMode
  | datasetOnly
  | factory
deriving DecidableEq

/-- Embedded from `deepr/prepros/base.py`: the signature captured by the
synthesized constructor, namely the parameters of `fn` with the "dataset"
and "mode" parameters excluded. -/
def sigOf (params : List Param) : List Param :=
  params.filter (fun p => p.name ≠ "dataset" && p.name ≠ "mode")

/-- Embedded from `deepr/prepros/base.py` (the `prepro` decorator, lines
172-198): the decoration-time analysis of the parameter names of `fn`.
When "dataset" is among the parameters it must come first (TypeError
otherwise), and when "mode" is also among them it must come second
(TypeError otherwise); a function declaring no "dataset" parameter is
treated as a lazy factory with no order check.  The errors are raised while
the decorator runs, before the synthesized class exists. -/
def prepro (params : List Param) : Except String PreproShape :=
  if (params.map Param.name).contains "dataset" then
    if (params.map Param.name).head? ≠ some "dataset" then
      .error "TypeError: dataset should be the first positional argument."
    else if (params.map Param.name).contains "mode" then
      if (params.map Param.name)[1]? ≠ some "mode" then
        .error "TypeError: mode should be the second positional argument."
      else .ok .datasetMode
    else .ok .datasetOnly
  else .ok .factory

/-- Embedded from `deepr/prepros/base.py`: Python `Signature.bind` for
positional-or-keyword parameters — `nargs` positional values fill the
leading parameters (too many is an error), no keyword may collide with a
positionally filled parameter, every keyword must name a remaining
parameter, and every remaining parameter must have a default or a keyword. -/
def bindOk (params : List Param) (nargs : Nat) (kwnames : List String) : Bool :=
  decide (nargs ≤ params.length)
    && (params.take nargs).all (fun p => !(kwnames.contains p.name))
    && kwnames.all (fun k => (params.drop nargs).any (fun p => p.name == k))
    && (params.drop nargs).all (fun p => p.hasDefault || kwnames.contains p.name)

/-- The arguments captured by a synthesized Prepro instance
(`self._args` and `self._kwargs`). -/
structure Captured (V : Type) where
  args : List V
  kwargs : List (String × V)

/-- Embedded from `deepr/prepros/base.py` (`_init`, lines 200-205): the
synthesized constructor binds its arguments against the captured signature
(the parameters of `fn` without "dataset" and "mode") eagerly, raising a
TypeError when they do not bind, and otherwise stores them unchanged. -/
def preproInit (V : Type) (fnParams : List Param) (args : List V)
    (kwargs : List (String × V)) : Except String (Captured V) :=
  if bindOk (sigOf fnParams) args.length (kwargs.map Prod.fst) then .ok ⟨args, kwargs⟩
  else .error "TypeError: arguments do not bind to the signature"

/-- An inner Prepro instance as produced by a factory function: its whole
behaviour is its `apply` on a dataset and an optional mode. -/
structure TransformF (σ μ : Type) where
  apply : σ → Option μ → σ

/-- Embedded from `deepr/prepros/base.py` (the factory-shape `_apply`,
lines 194-198): each call invokes `fn` on the captured arguments to build
a fresh inner Prepro and immediately applies it to the dataset and mode.
The wrapped `fn` is effect-polymorphic so that invocations are observable
(instantiate `M` with the identity monad for the pure semantics). -/
def factoryApply {M : Type → Type} [Monad M] {α σ μ : Type}
    (fn : α → M (TransformF σ μ)) (args : α) (dataset : σ) (mode : Option μ) : M σ :=
  bind (fn args) (fun t => pure (t.apply dataset mode))

/-- Instrumentation of a pure factory function: a state-monad version that
counts its own invocations. -/
def countingFn {α σ μ : Type} (f : α → TransformF σ μ) :
    α → StateM Nat (TransformF σ μ) :=
  fun a cnt => (f a, cnt + 1)

/-- The `DecayMean` metric of `deepr/metrics/mean.py`: its stored
attributes (float arithmetic is modelled exactly over the rationals). -/
structure DecayMean where
  decay : Rat
  tensors : Option (List String)
deriving DecidableEq

/-- Embedded from `deepr/metrics/mean.py` (`DecayMean.__init__`, lines
58-63): the constructor stores `decay` and `tensors` as passed and raises
ValueError exactly when `decay > 1 or decay < 0` (a raising constructor
yields no usable instance, hence the error result). -/
def DecayMean.init (decay : Rat) (tensors : Option (List String)) :
    Except String DecayMean :=
  if decay > 1 ∨ decay < 0 then
    .error "ValueError: decay must be between 0 and 1"
  else .ok ⟨decay, tensors⟩

deriving instance DecidableEq for Except

/-- Unfolding of the parse worker on null at positive fuel. -/
theorem parseV_null (n : Nat) (macros : List (String × Value)) :
    parseV (n + 1) macros .null = .ok .null := rfl

/-- Unfolding of the parse worker on booleans at positive fuel. -/
theorem parseV_bool (n : Nat) (macros : List (String × Value)) (b : Bool) :
    parseV (n + 1) macros (.bool b) = .ok (.bool b) := rfl

/-- Unfolding of the parse worker on numbers at positive fuel. -/
theorem parseV_int (n : Nat) (macros : List (String × Value)) (i : Int) :
    parseV (n + 1) macros (.int i) = .ok (.int i) := rfl

/-- A non-reference string passes through the parse worker unchanged. -/
theorem parseV_str_plain (n : Nat) (macros : List (String × Value)) (s : String)
    (h : isMacroStr s = false) :
    parseV (n + 1) macros (.str s) = .ok (.str s) := by
  simp [parseV, h]

/-- A Macro Reference string is resolved and its terminal value parsed. -/
theorem parseV_str_ref (n : Nat) (macros : List (String × Value)) (s : String)
    (h : isMacroStr s = true) :
    parseV (n + 1) macros (.str s)
      = match macroValueOf macros s with
        | .error e => .error e
        | .ok w => parseV n macros w := by
  simp [parseV, h]

/-- The parse worker maps itself over the elements of a sequence. -/
theorem parseV_arr (n : Nat) (macros : List (String × Value)) (xs : List Value) :
    parseV (n + 1) macros (.arr xs)
      = match mapExcept (parseV n macros) xs with
        | .error e => .error e
        | .ok ys => .ok (.arr ys) := rfl

/-- The parse worker on a Component Description: every value is parsed,
except the "@self" value which becomes the skip-augmented snapshot. -/
theorem parseV_obj_comp (n : Nat) (macros : List (String × Value))
    (fs : List (String × Value)) (h : hasType fs = true) :
    parseV (n + 1) macros (.obj fs)
      = match mapExceptSnd
            (fun w =>
              if isSelfStr w then .ok (Value.obj (fs ++ [("eval", Value.str "skip")]))
              else parseV n macros w) fs with
        | .error e => .error e
        | .ok fs' => .ok (.obj fs') := by
  simp [parseV, h]

/-- The parse worker on a non-component mapping: every value is parsed. -/
theorem parseV_obj_plain (n : Nat) (macros : List (String × Value))
    (fs : List (String × Value)) (h : hasType fs = false) :
    parseV (n + 1) macros (.obj fs)
      = match mapExceptSnd (parseV n macros) fs with
        | .error e => .error e
        | .ok fs' => .ok (.obj fs') := by
  simp [parseV, h]

/-- Any value has positive structural size. -/
theorem vsize_pos (v : Value) : 1 ≤ vsize v := by
  cases v <;> simp [vsize]

/-- Elements of a sequence are no larger than the sequence body. -/
theorem vsize_le_of_mem {x : Value} {xs : List Value} (h : x ∈ xs) :
    vsize x ≤ vsizeList xs := by
  induction xs with
  | nil => cases h
  | cons y ys ih =>
    rcases List.mem_cons.mp h with rfl | h'
    · simp [vsizeList]; omega
    · have := ih h'; simp [vsizeList]; omega

/-- Values of a mapping are no larger than the mapping body. -/
theorem vsize_le_of_mem_fields {kv : String × Value} {fs : List (String × Value)}
    (h : kv ∈ fs) : vsize kv.2 ≤ vsizeFields fs := by
  induction fs with
  | nil => cases h
  | cons p ps ih =>
    rcases List.mem_cons.mp h with rfl | h'
    · simp [vsizeFields]; omega
    · have := ih h'; simp [vsizeFields]; omega

/-- A successful effectful map sends members of the output to members of
the input related by the function. -/
theorem mapExcept_mem {f : Value → Except String Value} :
    ∀ {xs ys : List Value}, mapExcept f xs = .ok ys →
      ∀ y ∈ ys, ∃ x ∈ xs, f x = .ok y := by
  intro xs
  induction xs with
  | nil => intro ys h y hy; simp [mapExcept] at h; subst h; cases hy
  | cons x xs ih =>
    intro ys h y hy
    simp only [mapExcept] at h
    cases hfx : f x with
    | error e => rw [hfx] at h; cases h
    | ok z =>
      rw [hfx] at h
      cases hrest : mapExcept f xs with
      | error e => rw [hrest] at h; cases h
      | ok zs =>
        rw [hrest] at h
        cases h
        rcases List.mem_cons.mp hy with rfl | hy'
        · exact ⟨x, List.mem_cons_self x xs, hfx⟩
        · obtain ⟨x', hx', hfx'⟩ := ih hrest y hy'
          exact ⟨x', List.mem_cons_of_mem x hx', hfx'⟩

/-- A pointwise-identity function maps to the identity under `mapExcept`. -/
theorem mapExcept_id {f : Value → Except String Value} :
    ∀ {xs : List Value}, (∀ x ∈ xs, f x = .ok x) → mapExcept f xs = .ok xs := by
  intro xs
  induction xs with
  | nil => intro _; rfl
  | cons x xs ih =>
    intro h
    have hx := h x (List.mem_cons_self x xs)
    have hrest := ih (fun z hz => h z (List.mem_cons_of_mem x hz))
    simp [mapExcept, hx, hrest]

/-- A successful fieldwise map sends members of the output to members of
the input with the same key, related by the function. -/
theorem mapExceptSnd_mem {f : Value → Except String Value} :
    ∀ {fs fs' : List (String × Value)}, mapExceptSnd f fs = .ok fs' →
      ∀ kv' ∈ fs', ∃ kv ∈ fs, kv'.1 = kv.1 ∧ f kv.2 = .ok kv'.2 := by
  intro fs
  induction fs with
  | nil => intro fs' h kv' hkv'; simp [mapExceptSnd] at h; subst h; cases hkv'
  | cons kv fs ih =>
    intro fs' h kv' hkv'
    obtain ⟨k, v⟩ := kv
    simp only [mapExceptSnd] at h
    cases hfv : f v with
    | error e => rw [hfv] at h; cases h
    | ok w =>
      rw [hfv] at h
      cases hrest : mapExceptSnd f fs with
      | error e => rw [hrest] at h; cases h
      | ok rest' =>
        rw [hrest] at h
        cases h
        rcases List.mem_cons.mp hkv' with rfl | hkv''
        · exact ⟨(k, v), List.mem_cons_self _ _, rfl, hfv⟩
        · obtain ⟨p, hp, hk, hf⟩ := ih hrest kv' hkv''
          exact ⟨p, List.mem_cons_of_mem _ hp, hk, hf⟩

/-- A pointwise-identity function maps to the identity under `mapExceptSnd`. -/
theorem mapExceptSnd_id {f : Value → Except String Value} :
    ∀ {fs : List (String × Value)}, (∀ kv ∈ fs, f kv.2 = .ok kv.2) →
      mapExceptSnd f fs = .ok fs := by
  intro fs
  induction fs with
  | nil => intro _; rfl
  | cons kv fs ih =>
    intro h
    obtain ⟨k, v⟩ := kv
    have hx := h (k, v) (List.mem_cons_self _ _)
    have hrest := ih (fun z hz => h z (List.mem_cons_of_mem _ hz))
    simp only at hx
    simp [mapExceptSnd, hx, hrest]

/-- Functions agreeing on the values of a field list give equal fieldwise maps. -/
theorem mapExceptSnd_congr {f g : Value → Except String Value} :
    ∀ {fs : List (String × Value)}, (∀ kv ∈ fs, f kv.2 = g kv.2) →
      mapExceptSnd f fs = mapExceptSnd g fs := by
  intro fs
  induction fs with
  | nil => intro _; rfl
  | cons kv fs ih =>
    intro h
    obtain ⟨k, v⟩ := kv
    have hx := h (k, v) (List.mem_cons_self _ _)
    have hrest := ih (fun z hz => h z (List.mem_cons_of_mem _ hz))
    simp only at hx
    simp [mapExceptSnd, hx, hrest]

/-- A successful fieldwise map preserves the ordered key list. -/
theorem mapExceptSnd_keys {f : Value → Except String Value} :
    ∀ {fs fs' : List (String × Value)}, mapExceptSnd f fs = .ok fs' →
      fs'.map Prod.fst = fs.map Prod.fst := by
  intro fs
  induction fs with
  | nil => intro fs' h; simp [mapExceptSnd] at h; subst h; rfl
  | cons kv fs ih =>
    intro fs' h
    obtain ⟨k, v⟩ := kv
    simp only [mapExceptSnd] at h
    cases hfv : f v with
    | error e => rw [hfv] at h; cases h
    | ok w =>
      rw [hfv] at h
      cases hrest : mapExceptSnd f fs with
      | error e => rw [hrest] at h; cases h
      | ok rest' =>
        rw [hrest] at h
        cases h
        simp [ih hrest]

/-- A successful fieldwise map sends a first-match lookup of the input to a
first-match lookup of the output, through the function. -/
theorem mapExceptSnd_lookup {f : Value → Except String Value} {k : String} :
    ∀ {fs fs' : List (String × Value)} {v : Value}, mapExceptSnd f fs = .ok fs' →
      lookupField k fs = some v →
      ∃ w, lookupField k fs' = some w ∧ f v = .ok w := by
  intro fs
  induction fs with
  | nil => intro fs' v h hl; cases hl
  | cons kv fs ih =>
    intro fs' v h hl
    obtain ⟨k', v'⟩ := kv
    simp only [mapExceptSnd] at h
    cases hfv : f v' with
    | error e => rw [hfv] at h; cases h
    | ok w =>
      rw [hfv] at h
      cases hrest : mapExceptSnd f fs with
      | error e => rw [hrest] at h; cases h
      | ok rest' =>
        rw [hrest] at h
        cases h
        by_cases hk : k' = k
        · subst hk
          simp [lookupField] at hl ⊢
          subst hl
          exact hfv
        · simp [lookupField, hk] at hl ⊢
          exact ih hrest hl

/-- A fieldwise map with pointwise-known results is the corresponding
value map. -/
theorem mapExceptSnd_map {f : Value → Except String Value}
    {g : String × Value → Value} :
    ∀ {fs : List (String × Value)}, (∀ kv ∈ fs, f kv.2 = .ok (g kv)) →
      mapExceptSnd f fs = .ok (fs.map (fun kv => (kv.1, g kv))) := by
  intro fs
  induction fs with
  | nil => intro _; rfl
  | cons kv fs ih =>
    intro h
    obtain ⟨k, v⟩ := kv
    have hx := h (k, v) (List.mem_cons_self _ _)
    have hrest := ih (fun z hz => h z (List.mem_cons_of_mem _ hz))
    simp only at hx
    simp [mapExceptSnd, hx, hrest]

/-- First-match lookup succeeds in an extended list when it succeeds in the
prefix. -/
theorem lookupField_append_left {k : String} :
    ∀ {fs : List (String × Value)} {v : Value} (ys : List (String × Value)),
      lookupField k fs = some v → lookupField k (fs ++ ys) = some v := by
  intro fs
  induction fs with
  | nil => intro v ys h; cases h
  | cons kv fs ih =>
    intro v ys h
    obtain ⟨k', v'⟩ := kv
    by_cases hk : k' = k
    · subst hk; simp [lookupField] at h ⊢; exact h
    · simp [lookupField, hk] at h ⊢; exact ih ys h

/-- A value free of "@self" is not the Self Reference marker. -/
theorem isSelfStr_eq_false {v : Value} (h : selfFree v = true) : isSelfStr v = false := by
  cases v <;> simp_all [selfFree, isSelfStr]

/-- Membership form of `selfFreeList`. -/
theorem selfFreeList_iff {xs : List Value} :
    selfFreeList xs = true ↔ ∀ x ∈ xs, selfFree x = true := by
  induction xs with
  | nil => simp [selfFreeList]
  | cons x xs ih => simp [selfFreeList, ih]

/-- Membership form of `selfFreeFields`. -/
theorem selfFreeFields_iff {fs : List (String × Value)} :
    selfFreeFields fs = true ↔ ∀ kv ∈ fs, selfFree kv.2 = true := by
  induction fs with
  | nil => simp [selfFreeFields]
  | cons kv fs ih => simp [selfFreeFields, ih]

/-- Membership form of `macroFreeList`. -/
theorem macroFreeList_iff {xs : List Value} :
    macroFreeList xs = true ↔ ∀ x ∈ xs, macroFree x = true := by
  induction xs with
  | nil => simp [macroFreeList]
  | cons x xs ih => simp [macroFreeList, ih]

/-- Membership form of `macroFreeFields`. -/
theorem macroFreeFields_iff {fs : List (String × Value)} :
    macroFreeFields fs = true ↔ ∀ kv ∈ fs, macroFree kv.2 = true := by
  induction fs with
  | nil => simp [macroFreeFields]
  | cons kv fs ih => simp [macroFreeFields, ih]

/-- Membership form of `noComponentList`. -/
theorem noComponentList_iff {xs : List Value} :
    noComponentList xs = true ↔ ∀ x ∈ xs, noComponent x = true := by
  induction xs with
  | nil => simp [noComponentList]
  | cons x xs ih => simp [noComponentList, ih]

/-- Membership form of `noComponentFields`. -/
theorem noComponentFields_iff {fs : List (String × Value)} :
    noComponentFields fs = true ↔ ∀ kv ∈ fs, noComponent kv.2 = true := by
  induction fs with
  | nil => simp [noComponentFields]
  | cons kv fs ih => simp [noComponentFields, ih]

/-- A first-match lookup in a self-free field list yields a self-free value. -/
theorem selfFree_lookupField {k : String} :
    ∀ {fs : List (String × Value)} {v : Value}, selfFreeFields fs = true →
      lookupField k fs = some v → selfFree v = true := by
  intro fs
  induction fs with
  | nil => intro v _ h; cases h
  | cons kv fs ih =>
    intro v hsf h
    obtain ⟨k', v'⟩ := kv
    rw [selfFreeFields] at hsf
    simp only [Bool.and_eq_true] at hsf
    by_cases hk : k' = k
    · subst hk; simp [lookupField] at h; subst h; exact hsf.1
    · simp [lookupField, hk] at h; exact ih hsf.2 h

/-- Descending a dotted path through a self-free value yields a self-free
value. -/
theorem selfFree_descend :
    ∀ (path : List String) {v w : Value}, selfFree v = true →
      descend path v = .ok w → selfFree w = true := by
  intro path
  induction path with
  | nil => intro v w hv h; cases h; exact hv
  | cons seg rest ih =>
    intro v w hv h
    cases v with
    | obj fs =>
      rw [descend] at h
      cases hl : lookupField seg fs with
      | none => rw [hl] at h; cases h
      | some u =>
        rw [hl] at h
        have hu : selfFree u = true := selfFree_lookupField (by rw [selfFree] at hv; exact hv) hl
        exact ih hu h
    | null => cases h
    | bool b => cases h
    | int n => cases h
    | str s => cases h
    | arr xs => cases h

/-- A resolved Macro Reference value drawn from a self-free macro-mapping is
self-free. -/
theorem selfFree_macroValueOf {macros : List (String × Value)} {s : String} {w : Value}
    (hm : selfFreeFields macros = true) (h : macroValueOf macros s = .ok w) :
    selfFree w = true := by
  rw [macroValueOf] at h
  cases hl : lookupField (macroNameOf s) macros with
  | none => rw [hl] at h; cases h
  | some v =>
    rw [hl] at h
    exact selfFree_descend _ (selfFree_lookupField hm hl) h

/-- A successful parse of a self-free value against a self-free
macro-mapping yields a value with no Macro Reference and no Self Reference
left (every macro has been expanded, and no snapshot was created). -/
theorem parse_resolved :
    ∀ (fuel : Nat) (macros : List (String × Value)) (v y : Value),
      selfFree v = true → selfFreeFields macros = true →
      parseV fuel macros v = .ok y → macroFree y = true ∧ selfFree y = true := by
  intro fuel
  induction fuel with
  | zero => intro macros v y _ _ h; simp [parseV] at h
  | succ n ih =>
    intro macros v y hv hm h
    cases v with
    | null => rw [parseV_null] at h; cases h; exact ⟨rfl, rfl⟩
    | bool b => rw [parseV_bool] at h; cases h; exact ⟨rfl, rfl⟩
    | int i => rw [parseV_int] at h; cases h; exact ⟨rfl, rfl⟩
    | str s =>
      by_cases hms : isMacroStr s = true
      · rw [parseV_str_ref n macros s hms] at h
        cases hmv : macroValueOf macros s with
        | error e => rw [hmv] at h; cases h
        | ok w =>
          rw [hmv] at h
          exact ih macros w y (selfFree_macroValueOf hm hmv) hm h
      · have hms' : isMacroStr s = false := by simpa using hms
        rw [parseV_str_plain n macros s hms'] at h
        cases h
        exact ⟨by simp [macroFree, hms'], hv⟩
    | arr xs =>
      rw [parseV_arr] at h
      cases hmp : mapExcept (parseV n macros) xs with
      | error e => rw [hmp] at h; cases h
      | ok ys =>
        rw [hmp] at h
        cases h
        have hxs : ∀ x ∈ xs, selfFree x = true :=
          selfFreeList_iff.mp (by simpa [selfFree] using hv)
        constructor
        · rw [macroFree]
          apply macroFreeList_iff.mpr
          intro y' hy'
          obtain ⟨x, hx, hfx⟩ := mapExcept_mem hmp y' hy'
          exact (ih macros x y' (hxs x hx) hm hfx).1
        · rw [selfFree]
          apply selfFreeList_iff.mpr
          intro y' hy'
          obtain ⟨x, hx, hfx⟩ := mapExcept_mem hmp y' hy'
          exact (ih macros x y' (hxs x hx) hm hfx).2
    | obj fs =>
      have hfs : ∀ kv ∈ fs, selfFree kv.2 = true :=
        selfFreeFields_iff.mp (by simpa [selfFree] using hv)
      by_cases ht : hasType fs = true
      · rw [parseV_obj_comp n macros fs ht] at h
        cases hmp : mapExceptSnd
            (fun w =>
              if isSelfStr w then .ok (Value.obj (fs ++ [("eval", Value.str "skip")]))
              else parseV n macros w) fs with
        | error e => rw [hmp] at h; cases h
        | ok fs' =>
          rw [hmp] at h
          cases h
          have hmem : ∀ kv' ∈ fs', ∃ kv ∈ fs, parseV n macros kv.2 = .ok kv'.2 := by
            intro kv' hkv'
            obtain ⟨kv, hkv, _, hfkv⟩ := mapExceptSnd_mem hmp kv' hkv'
            rw [isSelfStr_eq_false (hfs kv hkv)] at hfkv
            simp at hfkv
            exact ⟨kv, hkv, hfkv⟩
          constructor
          · rw [macroFree]
            apply macroFreeFields_iff.mpr
            intro kv' hkv'
            obtain ⟨kv, hkv, hfkv⟩ := hmem kv' hkv'
            exact (ih macros kv.2 kv'.2 (hfs kv hkv) hm hfkv).1
          · rw [selfFree]
            apply selfFreeFields_iff.mpr
            intro kv' hkv'
            obtain ⟨kv, hkv, hfkv⟩ := hmem kv' hkv'
            exact (ih macros kv.2 kv'.2 (hfs kv hkv) hm hfkv).2
      · have ht' : hasType fs = false := by simpa using ht
        rw [parseV_obj_plain n macros fs ht'] at h
        cases hmp : mapExceptSnd (parseV n macros) fs with
        | error e => rw [hmp] at h; cases h
        | ok fs' =>
          rw [hmp] at h
          cases h
          constructor
          · rw [macroFree]
            apply macroFreeFields_iff.mpr
            intro kv' hkv'
            obtain ⟨kv, hkv, _, hfkv⟩ := mapExceptSnd_mem hmp kv' hkv'
            exact (ih macros kv.2 kv'.2 (hfs kv hkv) hm hfkv).1
          · rw [selfFree]
            apply selfFreeFields_iff.mpr
            intro kv' hkv'
            obtain ⟨kv, hkv, _, hfkv⟩ := mapExceptSnd_mem hmp kv' hkv'
            exact (ih macros kv.2 kv'.2 (hfs kv hkv) hm hfkv).2

/-- A value with no Macro Reference and no Self Reference anywhere parses to
itself, under any macro-mapping and any fuel at least its size. -/
theorem parse_fixpoint :
    ∀ (fuel : Nat) (macros : List (String × Value)) (v : Value),
      vsize v ≤ fuel → macroFree v = true → selfFree v = true →
      parseV fuel macros v = .ok v := by
  intro fuel
  induction fuel with
  | zero => intro macros v hle _ _; have := vsize_pos v; omega
  | succ n ih =>
    intro macros v hle hmf hsf
    cases v with
    | null => exact parseV_null n macros
    | bool b => exact parseV_bool n macros b
    | int i => exact parseV_int n macros i
    | str s =>
      have hms : isMacroStr s = false := by simpa [macroFree] using hmf
      exact parseV_str_plain n macros s hms
    | arr xs =>
      have hsize : vsizeList xs ≤ n := by rw [vsize] at hle; omega
      have hmfs : ∀ x ∈ xs, macroFree x = true :=
        macroFreeList_iff.mp (by simpa [macroFree] using hmf)
      have hsfs : ∀ x ∈ xs, selfFree x = true :=
        selfFreeList_iff.mp (by simpa [selfFree] using hsf)
      rw [parseV_arr,
        mapExcept_id (fun x hx =>
          ih macros x (le_trans (vsize_le_of_mem hx) hsize) (hmfs x hx) (hsfs x hx))]
    | obj fs =>
      have hsize : vsizeFields fs ≤ n := by rw [vsize] at hle; omega
      have hmfs : ∀ kv ∈ fs, macroFree kv.2 = true :=
        macroFreeFields_iff.mp (by simpa [macroFree] using hmf)
      have hsfs : ∀ kv ∈ fs, selfFree kv.2 = true :=
        selfFreeFields_iff.mp (by simpa [selfFree] using hsf)
      have hpt : ∀ kv ∈ fs, parseV n macros kv.2 = .ok kv.2 := fun kv hkv =>
        ih macros kv.2 (le_trans (vsize_le_of_mem_fields hkv) hsize) (hmfs kv hkv)
          (hsfs kv hkv)
      by_cases ht : hasType fs = true
      · rw [parseV_obj_comp n macros fs ht,
          mapExceptSnd_id (fun kv hkv => by
            rw [isSelfStr_eq_false (hsfs kv hkv)]
            simpa using hpt kv hkv)]
      · have ht' : hasType fs = false := by simpa using ht
        rw [parseV_obj_plain n macros fs ht', mapExceptSnd_id hpt]

/-- Dropping the "eval" key while recursing is filtering then mapping. -/
theorem fromConfigSkipFields_eq_filter :
    ∀ fs : List (String × Value),
      fromConfigSkipFields fs
        = (fs.filter (fun kv => kv.1 ≠ "eval")).map (fun kv => (kv.1, fromConfig kv.2)) := by
  intro fs
  induction fs with
  | nil => rfl
  | cons kv fs ih =>
    obtain ⟨k, v⟩ := kv
    by_cases hk : k = "eval"
    · subst hk; simp [fromConfigSkipFields, ih]
    · simp [fromConfigSkipFields, hk, ih]

/-- Pointwise pass-through lifts to sequences. -/
theorem fromConfigList_congr :
    ∀ {xs : List Value}, (∀ x ∈ xs, fromConfig x = toObj x) →
      fromConfigList xs = toObjList xs := by
  intro xs
  induction xs with
  | nil => intro _; rfl
  | cons x xs ih =>
    intro h
    rw [fromConfigList, toObjList, h x (List.mem_cons_self x xs),
      ih (fun z hz => h z (List.mem_cons_of_mem x hz))]

/-- Pointwise pass-through lifts to mappings. -/
theorem fromConfigFields_congr :
    ∀ {fs : List (String × Value)}, (∀ kv ∈ fs, fromConfig kv.2 = toObj kv.2) →
      fromConfigFields fs = toObjFields fs := by
  intro fs
  induction fs with
  | nil => intro _; rfl
  | cons kv fs ih =>
    intro h
    obtain ⟨k, v⟩ := kv
    have h1 := h (k, v) (List.mem_cons_self _ _)
    simp only at h1
    rw [fromConfigFields, toObjFields, h1,
      ih (fun z hz => h z (List.mem_cons_of_mem _ hz))]

/-- Fuel-indexed pass-through of `from_config` on component-free values. -/
theorem fromConfig_noComp_aux :
    ∀ (n : Nat) (v : Value), vsize v ≤ n → noComponent v = true →
      fromConfig v = toObj v := by
  intro n
  induction n with
  | zero => intro v hle _; have := vsize_pos v; omega
  | succ n ih =>
    intro v hle hnc
    cases v with
    | null => rfl
    | bool b => rfl
    | int i => rfl
    | str s => rfl
    | arr xs =>
      have hsize : vsizeList xs ≤ n := by rw [vsize] at hle; omega
      have hxs : ∀ x ∈ xs, noComponent x = true :=
        noComponentList_iff.mp (by simpa [noComponent] using hnc)
      simp only [fromConfig, toObj]
      rw [fromConfigList_congr
        (fun x hx => ih x (le_trans (vsize_le_of_mem hx) hsize) (hxs x hx))]
    | obj fs =>
      have hsize : vsizeFields fs ≤ n := by rw [vsize] at hle; omega
      rw [noComponent, Bool.and_eq_true, Bool.not_eq_true'] at hnc
      have hfs : ∀ kv ∈ fs, noComponent kv.2 = true := noComponentFields_iff.mp hnc.2
      simp only [fromConfig, toObj, hnc.1, Bool.false_eq_true, if_false]
      rw [fromConfigFields_congr
        (fun kv hkv => ih kv.2 (le_trans (vsize_le_of_mem_fields hkv) hsize) (hfs kv hkv))]

/-- `from_config` passes a value with no Component Description anywhere
through structurally unchanged. -/
theorem fromConfig_noComp (v : Value) (h : noComponent v = true) :
    fromConfig v = toObj v :=
  fromConfig_noComp_aux (vsize v) v le_rfl h

/-- Claim C1: for every Component Description (mapping with a "type" key)
holding the literal string "@self" as the value of some key, a successful
`parse_config` returns the description with that key's value replaced by a
snapshot equal to the description itself augmented with an "eval": "skip"
entry; the substitution is one level deep only — the snapshot still holds
the raw "@self" marker at that same key and is not expanded again. -/
theorem C1_self_reference_snapshot (fs macros : List (String × Value)) (k : String)
    (r : Value) (ht : hasType fs = true)
    (hk : lookupField k fs = some (.str "@self"))
    (h : parse_config (.obj fs) macros = .ok r) :
    (∃ fs', r = .obj fs'
      ∧ fs'.map Prod.fst = fs.map Prod.fst
      ∧ lookupField k fs' = some (.obj (fs ++ [("eval", Value.str "skip")]))
      ∧ lookupField k (fs ++ [("eval", Value.str "skip")]) = some (.str "@self"))
    ∧ ((∀ kv ∈ fs, isSelfStr kv.2 = false →
          macroFree kv.2 = true ∧ selfFree kv.2 = true) →
        r = .obj (fs.map (fun kv =>
          (kv.1, if isSelfStr kv.2
            then Value.obj (fs ++ [("eval", Value.str "skip")]) else kv.2)))) := by
  rw [parse_config] at h
  obtain ⟨n, hn⟩ : ∃ n, vsize (Value.obj fs) + vsizeFields macros = n + 1 := by
    have := vsize_pos (Value.obj fs)
    exact ⟨vsize (Value.obj fs) + vsizeFields macros - 1, by omega⟩
  have hnsize : vsizeFields fs ≤ n := by
    rw [vsize] at hn; omega
  rw [hn, parseV_obj_comp n macros fs ht] at h
  cases hmp : mapExceptSnd
      (fun w =>
        if isSelfStr w then .ok (Value.obj (fs ++ [("eval", Value.str "skip")]))
        else parseV n macros w) fs with
  | error e => rw [hmp] at h; cases h
  | ok fs' =>
    rw [hmp] at h
    cases h
    constructor
    · refine ⟨fs', rfl, mapExceptSnd_keys hmp, ?_, lookupField_append_left _ hk⟩
      obtain ⟨w, hw, hfw⟩ := mapExceptSnd_lookup hmp hk
      simp only [isSelfStr, if_pos] at hfw
      simp at hfw
      rw [hw, ← hfw]
    · intro hres
      have hmap : mapExceptSnd
          (fun w =>
            if isSelfStr w then .ok (Value.obj (fs ++ [("eval", Value.str "skip")]))
            else parseV n macros w) fs
          = .ok (fs.map (fun kv =>
              (kv.1, if isSelfStr kv.2
                then Value.obj (fs ++ [("eval", Value.str "skip")]) else kv.2))) := by
        apply mapExceptSnd_map
        intro kv hkv
        by_cases hs : isSelfStr kv.2 = true
        · simp [hs]
        · have hs' : isSelfStr kv.2 = false := by simpa using hs
          obtain ⟨hmf, hsf⟩ := hres kv hkv hs'
          simp only [hs', Bool.false_eq_true, if_false]
          exact parse_fixpoint n macros kv.2
            (le_trans (vsize_le_of_mem_fields hkv) hnsize) hmf hsf
      rw [hmp] at hmap
      cases hmap
      rfl

/-- Claim C1 witness: the snapshot property at the concrete description from
the repository's test file, with the empty macro-mapping. -/
theorem C1_self_reference_snapshot_witness :
    (∃ fs',
      Value.obj [("type", Value.str "test_config_base.A"),
          ("x", Value.obj [("type", Value.str "test_config_base.A"),
            ("x", Value.str "@self"), ("eval", Value.str "skip")])]
        = .obj fs'
      ∧ fs'.map Prod.fst
          = ([("type", Value.str "test_config_base.A"),
              ("x", Value.str "@self")] : List (String × Value)).map Prod.fst
      ∧ lookupField "x" fs'
          = some (.obj ([("type", Value.str "test_config_base.A"),
              ("x", Value.str "@self")] ++ [("eval", Value.str "skip")]))
      ∧ lookupField "x" ([("type", Value.str "test_config_base.A"),
            ("x", Value.str "@self")] ++ [("eval", Value.str "skip")])
          = some (.str "@self"))
    ∧ Value.obj [("type", Value.str "test_config_base.A"),
          ("x", Value.obj [("type", Value.str "test_config_base.A"),
            ("x", Value.str "@self"), ("eval", Value.str "skip")])]
        = .obj (([("type", Value.str "test_config_base.A"),
            ("x", Value.str "@self")] : List (String × Value)).map (fun kv =>
          (kv.1, if isSelfStr kv.2
            then Value.obj ([("type", Value.str "test_config_base.A"),
              ("x", Value.str "@self")] ++ [("eval", Value.str "skip")])
            else kv.2))) := by
  have h := C1_self_reference_snapshot
    [("type", Value.str "test_config_base.A"), ("x", Value.str "@self")] [] "x" _
    rfl rfl rfl
  exact ⟨h.1, h.2 (by decide)⟩

/-- Claim C3: the end-to-end macro example — `parse_config` replaces the
macro reference string by the value found by looking up the macro name and
descending the dotted path, and `from_config` of the resolved mapping
instantiates A with the named argument x = 1. -/
theorem C3_macro_end_to_end :
    parse_config (.obj [("type", .str "pkg.A"), ("x", .str "$macro:x")])
        [("macro", .obj [("x", .int 1)])]
      = .ok (.obj [("type", .str "pkg.A"), ("x", .int 1)])
    ∧ from_config (.obj [("type", .str "pkg.A"), ("x", .int 1)])
      = .inst "pkg.A" [] [("x", .int 1)] :=
  ⟨rfl, rfl⟩

/-- Claim C4: a Component Description with an "eval": "skip" entry is not
instantiated by `from_config` — it yields a literal mapping with the "eval"
key removed, the "type" key retained and every other value recursively
processed; the same description without the skip marker is instantiated. -/
theorem C4_eval_skip (fs : List (String × Value)) (ht : hasType fs = true) :
    (isSkipEval fs = true →
      from_config (.obj fs)
        = .map ((fs.filter (fun kv => kv.1 ≠ "eval")).map
            (fun kv => (kv.1, fromConfig kv.2))))
    ∧ (isSkipEval fs = false →
      from_config (.obj fs)
        = .inst (typeNameOf fs) (fromConfigArgs fs) (fromConfigKw fs)) := by
  constructor
  · intro hskip
    have h1 : from_config (.obj fs) = .map (fromConfigSkipFields fs) := by
      simp [from_config, fromConfig, ht, hskip]
    rw [h1, fromConfigSkipFields_eq_filter]
  · intro hskip
    simp [from_config, fromConfig, ht, hskip]

/-- Claim C4 witness: the two concrete descriptions from the repository's
test file. -/
theorem C4_eval_skip_witness :
    from_config (.obj [("type", .str "test_config_base.A"),
        ("eval", .str "skip"), ("x", .int 1)])
      = .map [("type", .str "test_config_base.A"), ("x", .int 1)]
    ∧ from_config (.obj [("type", .str "test_config_base.A"), ("x", .int 1)])
      = .inst "test_config_base.A" [] [("x", .int 1)] := by
  constructor
  · have h := (C4_eval_skip [("type", Value.str "test_config_base.A"),
        ("eval", Value.str "skip"), ("x", Value.int 1)] rfl).1 rfl
    rw [h]
    rfl
  · have h := (C4_eval_skip [("type", Value.str "test_config_base.A"),
        ("x", Value.int 1)] rfl).2 rfl
    rw [h]
    rfl

/-- Claim C5: the reserved "*" key supplies positional arguments and the
other non-reserved keys named arguments. -/
theorem C5_star_positional :
    from_config (.obj [("type", .str "mod.B"), ("*", .arr [.int 1, .int 2])])
      = .inst "mod.B" [.int 1, .int 2] []
    ∧ from_config (.obj [("type", .str "mod.A"), ("x", .int 1)])
      = .inst "mod.A" [] [("x", .int 1)] :=
  ⟨rfl, rfl⟩

/-- Claim C7: `parse_config` is idempotent — when the description and the
macro-mapping contain no unresolved "@self" marker, a second run on the
output of a successful run returns that output untouched. -/
theorem C7_parse_config_idempotent (x : Value) (macros : List (String × Value))
    (y : Value) (hx : selfFree x = true) (hm : selfFreeMacros macros = true)
    (h : parse_config x macros = .ok y) :
    parse_config y macros = .ok y := by
  obtain ⟨hmf, hsf⟩ := parse_resolved _ macros x y hx hm h
  exact parse_fixpoint _ macros y (Nat.le_add_right _ _) hmf hsf

/-- Claim C7 witness: idempotence at a concrete description with a macro
reference. -/
theorem C7_parse_config_idempotent_witness :
    parse_config (.obj [("type", .str "A"), ("x", .int 7)])
        [("m", .obj [("p", .int 7)])]
      = .ok (.obj [("type", .str "A"), ("x", .int 7)]) :=
  C7_parse_config_idempotent (.obj [("type", .str "A"), ("x", .str "$m:p")]) _ _
    rfl rfl rfl

/-- Claim C8 counterexample: a scalar macro-reference string is not passed
through unchanged by `parse_config` — it is resolved to the macro value —
so the universally quantified pass-through claim fails at this input. -/
theorem C8_pass_through_counterexample :
    parse_config (.str "$m:x") [("m", .obj [("x", .int 1)])] = .ok (.int 1)
    ∧ Value.str "$m:x" ≠ Value.int 1 :=
  ⟨rfl, fun h => Value.noConfusion h⟩

/-- Claim C8 (amended): literals containing no Macro Reference string and no
"@self" marker pass through `parse_config` unchanged under every
macro-mapping, and `from_config` passes values containing no Component
Description through structurally unchanged (recursing into elements and
values). -/
theorem C8_pass_through (x : Value) (macros : List (String × Value)) :
    (macroFree x = true → selfFree x = true → parse_config x macros = .ok x)
    ∧ (noComponent x = true → from_config x = toObj x) := by
  constructor
  · intro hmf hsf
    exact parse_fixpoint _ macros x (Nat.le_add_right _ _) hmf hsf
  · intro hnc
    exact fromConfig_noComp x hnc

/-- Claim C8 witness: pass-through at a concrete sequence holding a scalar
and a non-component mapping. -/
theorem C8_pass_through_witness :
    parse_config (.arr [.int 1, .obj [("a", .str "hello")]]) []
      = .ok (.arr [.int 1, .obj [("a", .str "hello")]])
    ∧ from_config (.arr [.int 1, .obj [("a", .str "hello")]])
      = toObj (.arr [.int 1, .obj [("a", .str "hello")]]) :=
  ⟨(C8_pass_through (.arr [.int 1, .obj [("a", .str "hello")]]) []).1 rfl rfl,
   (C8_pass_through (.arr [.int 1, .obj [("a", .str "hello")]]) []).2 rfl⟩

/-- Claim C2 counterexample: a function whose first parameter is "mode" but
which declares no "dataset" parameter at all is accepted by the `prepro`
decorator (as a lazy factory) — no TypeError is raised at decoration time,
refuting the claim as stated. -/
theorem C2_signature_order_counterexample :
    prepro [⟨"mode", false⟩, ⟨"x", false⟩] = .ok .factory
    ∧ ∀ e, prepro [⟨"mode", false⟩, ⟨"x", false⟩] ≠ .error e := by
  refine ⟨rfl, fun e h => ?_⟩
  rw [show prepro [⟨"mode", false⟩, ⟨"x", false⟩] = .ok .factory from rfl] at h
  cases h

/-- Claim C2 (amended): decorating a function whose first parameter is
"mode" raises the signature-order TypeError at decoration time exactly when
"dataset" is also among its parameters; when "dataset" is absent the
function is treated as a lazy factory and no error is raised. -/
theorem C2_signature_order (ps : List Param)
    (hhead : (ps.map Param.name).head? = some "mode") :
    ((ps.map Param.name).contains "dataset" = true →
      prepro ps = .error "TypeError: dataset should be the first positional argument.")
    ∧ ((ps.map Param.name).contains "dataset" = false → prepro ps = .ok .factory) := by
  constructor
  · intro hc
    rw [prepro, if_pos hc, if_pos (by rw [hhead]; decide)]
  · intro hc
    rw [prepro, if_neg (by rw [hc]; exact Bool.false_ne_true)]

/-- Claim C2 witness: the two branches at concrete parameter lists whose
first parameter is "mode". -/
theorem C2_signature_order_witness :
    prepro [⟨"mode", false⟩, ⟨"dataset", false⟩]
      = .error "TypeError: dataset should be the first positional argument."
    ∧ prepro [⟨"mode", false⟩, ⟨"y", false⟩] = .ok .factory :=
  ⟨(C2_signature_order [⟨"mode", false⟩, ⟨"dataset", false⟩] rfl).1 rfl,
   (C2_signature_order [⟨"mode", false⟩, ⟨"y", false⟩] rfl).2 rfl⟩

/-- Claim C6: a factory-shape transform invokes the wrapped function anew on
every application — applying it twice runs the factory twice (the
invocation counter advances by two, no caching), each run building a fresh
inner transform applied to its own dataset and mode. -/
theorem C6_lazy_factory (α σ μ : Type) (f : α → TransformF σ μ) (a : α)
    (d1 d2 : σ) (m1 m2 : Option μ) (n : Nat) :
    (do
      let r1 ← factoryApply (countingFn f) a d1 m1
      let r2 ← factoryApply (countingFn f) a d2 m2
      pure (r1, r2) : StateM Nat (σ × σ)) n
      = (((f a).apply d1 m1, (f a).apply d2 m2), n + 2) := rfl

/-- Claim C9: the synthesized constructor succeeds exactly when the
arguments bind against the wrapped function's parameters with "dataset" and
"mode" excluded, and on success the captured arguments are exactly those
passed. -/
theorem C9_constructor_binding (V : Type) (fnParams : List Param) (args : List V)
    (kwargs : List (String × V)) :
    ((∃ c, preproInit V fnParams args kwargs = .ok c)
        ↔ bindOk (sigOf fnParams) args.length (kwargs.map Prod.fst) = true)
    ∧ ∀ c, preproInit V fnParams args kwargs = .ok c → c = ⟨args, kwargs⟩ := by
  constructor
  · constructor
    · rintro ⟨c, hc⟩
      by_cases hb : bindOk (sigOf fnParams) args.length (kwargs.map Prod.fst) = true
      · exact hb
      · simp [preproInit, hb] at hc
    · intro hb
      exact ⟨⟨args, kwargs⟩, by simp [preproInit, hb]⟩
  · intro c hc
    by_cases hb : bindOk (sigOf fnParams) args.length (kwargs.map Prod.fst) = true
    · simp [preproInit, hb] at hc
      exact hc.symm
    · simp [preproInit, hb] at hc

/-- Claim C9 witness: constructing with the keyword argument x = 5 against a
function declaring (dataset, mode, x) binds, and the captured arguments are
exactly those passed. -/
theorem C9_constructor_binding_witness :
    (∃ c, preproInit Nat [⟨"dataset", false⟩, ⟨"mode", false⟩, ⟨"x", false⟩]
        [] [("x", 5)] = .ok c)
    ∧ (Captured.mk [] [("x", 5)] : Captured Nat) = ⟨[], [("x", 5)]⟩ :=
  ⟨(C9_constructor_binding Nat [⟨"dataset", false⟩, ⟨"mode", false⟩, ⟨"x", false⟩]
      [] [("x", 5)]).1.mpr rfl,
   (C9_constructor_binding Nat [⟨"dataset", false⟩, ⟨"mode", false⟩, ⟨"x", false⟩]
      [] [("x", 5)]).2 ⟨[], [("x", 5)]⟩ rfl⟩

/-- Claim C10: the DecayMean constructor raises ValueError exactly when the
decay lies outside the closed interval from 0 to 1; the boundary values 0
and 1 are accepted, and on acceptance the instance stores decay and tensors
exactly as passed. -/
theorem C10_decay_mean_init (d : Rat) (ts : Option (List String)) :
    ((∃ e, DecayMean.init d ts = .error e) ↔ (d > 1 ∨ d < 0))
    ∧ DecayMean.init 0 ts = .ok ⟨0, ts⟩
    ∧ DecayMean.init 1 ts = .ok ⟨1, ts⟩
    ∧ (¬(d > 1 ∨ d < 0) → DecayMean.init d ts = .ok ⟨d, ts⟩) := by
  refine ⟨⟨?_, ?_⟩, ?_, ?_, ?_⟩
  · rintro ⟨e, he⟩
    by_cases hb : d > 1 ∨ d < 0
    · exact hb
    · simp [DecayMean.init, hb] at he
  · intro hb
    refine ⟨"ValueError: decay must be between 0 and 1", ?_⟩
    simp [DecayMean.init, hb]
  · norm_num [DecayMean.init]
  · norm_num [DecayMean.init]
  · intro hb
    simp [DecayMean.init, hb]

/-- Claim C10 witness: decay 2 is rejected and decay one half is accepted
and stored as passed. -/
theorem C10_decay_mean_init_witness :
    (∃ e, DecayMean.init 2 none = .error e)
    ∧ DecayMean.init (1/2) none = .ok ⟨1/2, none⟩ :=
  ⟨(C10_decay_mean_init 2 none).1.mpr (by norm_num),
   (C10_decay_mean_init (1/2) none).2.2.2 (by norm_num)⟩
